import Mathlib

/-!
Verification of the `DraftOrderComplete` mutation
(`saleor/graphql/order/mutations/draft_order_complete.py`).

The orchestrator (`perform_mutation`, `validate_order`, `update_user_fields`,
the per-line allocation loop, shipping normalization and event emission) is
embedded directly from the source file.  The stock / preorder allocators
(`allocate_stocks`, `allocate_preorders` from `warehouse.management`) and the
database-transaction semantics are not part of the source tree; they are
modelled from the specification (§4.1–§4.3, §5) and marked as such in their
doc comments.
-/

namespace Saleor

/-- A customer account; only the fields read by the mutation are modelled. -/
structure User where
  id : Nat
  email : String
deriving DecidableEq

/-- Order status enum (`OrderStatus`); only the states relevant here. -/
inductive OrderStatus
  | draft
  | unfulfilled
  | fulfilled
  | canceled
deriving DecidableEq

/-- A shipping address, an owned optional value of the order (spec §9). -/
structure Address where
  id : Nat
deriving DecidableEq

/-- A taxed money amount (net, gross, currency). -/
structure TaxedMoney where
  net : Int
  gross : Int
  currency : String
deriving DecidableEq

/-- `zero_taxed_money(currency)` from `core.taxes`. -/
def zero_taxed_money (currency : String) : TaxedMoney :=
  { net := 0, gross := 0, currency := currency }

/-- A product variant; `track_inventory` and the (precomputed) result of
`is_preorder_active()` are the two routing flags (spec §3). -/
structure Variant where
  id : Nat
  track_inventory : Bool
  is_preorder_active : Bool
deriving DecidableEq

/-- An order line: variant reference and requested quantity. -/
structure OrderLine where
  id : Nat
  variant : Variant
  quantity : Nat
deriving DecidableEq

/-- The order row, with every field the mutation reads or writes.
`channel` is the channel slug, `payments` the ordered payment references. -/
structure Order where
  id : Nat
  status : OrderStatus
  user : Option User
  user_email : String
  currency : String
  shipping_required : Bool
  shipping_method_name : Option String
  shipping_price : TaxedMoney
  shipping_address : Option Address
  search_document : String
  channel : String
  payments : List Nat
  lines : List OrderLine
deriving DecidableEq

/-- `order.is_draft()`. -/
def Order.is_draft (o : Order) : Bool :=
  match o.status with
  | OrderStatus.draft => true
  | _ => false

/-- `order.get_last_payment()`: the most recently created payment, if any. -/
def Order.get_last_payment (o : Order) : Option Nat :=
  o.payments.getLast?

/-- `order.get_customer_email()`: the attached user's email when a user is
attached, the order's own email field otherwise. -/
def Order.get_customer_email (o : Order) : String :=
  match o.user with
  | some u => u.email
  | none => o.user_email

/-- `OrderLineInfo(line=line, quantity=line.quantity, variant=line.variant)`. -/
structure OrderLineInfo where
  line : OrderLine
  quantity : Nat
  variant : Variant
deriving DecidableEq

def mkLineInfo (l : OrderLine) : OrderLineInfo :=
  { line := l, quantity := l.quantity, variant := l.variant }

/-- `OrderInfo` as built at the end of `perform_mutation`. -/
structure OrderInfo where
  order : Order
  customer_email : String
  channel : String
  payment : Option Nat
  lines_data : List OrderLineInfo
deriving DecidableEq

/-- A structured shortage report: variant identity, requested quantity and
total available quantity found (spec §4.1). -/
structure Shortage where
  variant_id : Nat
  requested : Nat
  available : Nat
deriving DecidableEq

/-- Modelled from the spec: one Stock Ledger row per (warehouse, variant)
with on-hand and allocated counters (spec §2, §3); the Reservation Index is
summarized as the aggregate active reserved quantity against the row. -/
structure StockRecord where
  warehouse : String
  variant_id : Nat
  quantity_on_hand : Nat
  quantity_allocated : Nat
  quantity_reserved : Nat
deriving DecidableEq

/-- Modelled from the spec: the preorder capacity pool scoped per
(variant, channel) (spec §4.3), with its own reservation aggregate. -/
structure PreorderRecord where
  variant_id : Nat
  channel : String
  capacity : Nat
  allocated : Nat
  reserved : Nat
deriving DecidableEq

/-- The persistent stock-side state: Stock Ledger plus preorder pools. -/
structure StockState where
  stocks : List StockRecord
  preorders : List PreorderRecord
deriving DecidableEq

/-- First Stock Ledger row for the given (warehouse, variant) pair. -/
def findStock : List StockRecord → String → Nat → Option StockRecord
  | [], _, _ => none
  | r :: rest, w, vid =>
    if r.warehouse = w ∧ r.variant_id = vid then some r
    else findStock rest w vid

/-- Modelled from the spec: available quantity in one row =
on-hand − allocated − active reservations when reservations are checked
(spec §4.1), floored at zero. -/
def stockAvailable (mode : Bool) (r : StockRecord) : Nat :=
  r.quantity_on_hand - r.quantity_allocated -
    (if mode then r.quantity_reserved else 0)

/-- Increment the allocated counter of the first matching row by `q`. -/
def bumpAllocated : List StockRecord → String → Nat → Nat → List StockRecord
  | [], _, _, _ => []
  | r :: rest, w, vid, q =>
    if r.warehouse = w ∧ r.variant_id = vid then
      { r with quantity_allocated := r.quantity_allocated + q } :: rest
    else r :: bumpAllocated rest w vid q

/-- Total allocated quantity recorded for a variant across all rows. -/
def totalAllocated : List StockRecord → Nat → Nat
  | [], _ => 0
  | r :: rest, vid =>
    (if r.variant_id = vid then r.quantity_allocated else 0) +
      totalAllocated rest vid

/-- Modelled from the spec: the Allocation Planner's greedy walk over the
candidate warehouses (spec §4.1).  Returns the planned (warehouse, quantity)
pairs together with the unsatisfied remainder. -/
def planLine (stocks : List StockRecord) (mode : Bool) (vid : Nat) :
    List String → Nat → List (String × Nat) × Nat
  | [], remaining => ([], remaining)
  | w :: ws, remaining =>
    if remaining = 0 then ([], 0)
    else
      let avail :=
        match findStock stocks w vid with
        | some r => stockAvailable mode r
        | none => 0
      let take := min remaining avail
      let rec1 := planLine stocks mode vid ws (remaining - take)
      if take = 0 then rec1 else ((w, take) :: rec1.1, rec1.2)

/-- Modelled from the spec: `plan(line, …) → AllocationPlan | ShortageError`
(spec §4.1).  The shortage carries the variant, the requested quantity and
the total available quantity found. -/
def plan (stocks : List StockRecord) (candidates : List String) (mode : Bool)
    (vid : Nat) (qty : Nat) : Except Shortage (List (String × Nat)) :=
  let pr := planLine stocks mode vid candidates qty
  if pr.2 = 0 then Except.ok pr.1
  else Except.error { variant_id := vid, requested := qty, available := qty - pr.2 }

/-- Modelled from the spec: the Allocation Applier commits a plan by
incrementing each targeted row's allocated counter (spec §4.2). -/
def applyPlan (stocks : List StockRecord) (vid : Nat) :
    List (String × Nat) → List StockRecord
  | [] => stocks
  | (w, q) :: rest => applyPlan (bumpAllocated stocks w vid q) vid rest

/-- The tagged allocation strategy of a variant (spec §9): preorder-active
variants route to the Preorder Allocator instead of physical stock (spec §2),
tracked variants route to the Planner+Applier pair, others are skipped. -/
inductive AllocationStrategy
  | stock
  | preorder
  | skip
deriving DecidableEq

/-- Modelled from the spec: resolve the allocation strategy once per line
from the variant's two flags (spec §2, §3, §9). -/
def resolveStrategy (v : Variant) : AllocationStrategy :=
  if v.is_preorder_active then AllocationStrategy.preorder
  else if v.track_inventory then AllocationStrategy.stock
  else AllocationStrategy.skip

/-- The external context of one mutation invocation: the user table, the
warehouse-selection policy's candidate list for the order's country and
channel (external per spec §4.1), the site-wide reservation flag, the result
of `validate_draft_order`, and the search-document generator (all external
collaborators per spec §6). -/
structure Ctx where
  users : List User
  candidates : List String
  reservation_enabled : Bool
  draft_valid : Bool
  searchDoc : Order → String

/-- Modelled from the spec: `allocate_stocks` (warehouse.management, not in
the source tree): for a line routed to the stock path, plan greedily and
apply atomically; other lines are untouched (spec §4.1, §4.2). -/
def allocate_stocks (ctx : Ctx) (st : StockState) (l : OrderLine) :
    Except Shortage StockState :=
  if resolveStrategy l.variant = AllocationStrategy.stock then
    match plan st.stocks ctx.candidates ctx.reservation_enabled l.variant.id l.quantity with
    | Except.ok p => Except.ok { st with stocks := applyPlan st.stocks l.variant.id p }
    | Except.error s => Except.error s
  else Except.ok st

/-- First preorder pool for the given (variant, channel) pair. -/
def findPreorder : List PreorderRecord → Nat → String → Option PreorderRecord
  | [], _, _ => none
  | r :: rest, vid, ch =>
    if r.variant_id = vid ∧ r.channel = ch then some r
    else findPreorder rest vid ch

/-- Increment the allocated counter of the first matching pool by `q`. -/
def bumpPreorder : List PreorderRecord → Nat → String → Nat → List PreorderRecord
  | [], _, _, _ => []
  | r :: rest, vid, ch, q =>
    if r.variant_id = vid ∧ r.channel = ch then
      { r with allocated := r.allocated + q } :: rest
    else r :: bumpPreorder rest vid ch q

/-- Total preorder quantity allocated for a (variant, channel) pair. -/
def preorderAllocated : List PreorderRecord → Nat → String → Nat
  | [], _, _ => 0
  | r :: rest, vid, ch =>
    (if r.variant_id = vid ∧ r.channel = ch then r.allocated else 0) +
      preorderAllocated rest vid ch

/-- Modelled from the spec: available preorder capacity =
capacity − allocated − active reservations when checked (spec §4.3). -/
def preorderAvailable (mode : Bool) (r : PreorderRecord) : Nat :=
  r.capacity - r.allocated - (if mode then r.reserved else 0)

/-- Modelled from the spec: `allocate_preorders` (warehouse.management, not
in the source tree): for a line routed to the preorder path, allocate from
the (variant, channel) capacity pool or fail with a shortage (spec §4.3);
other lines are untouched. -/
def allocate_preorders (ctx : Ctx) (st : StockState) (channel : String)
    (l : OrderLine) : Except Shortage StockState :=
  if resolveStrategy l.variant = AllocationStrategy.preorder then
    let avail :=
      match findPreorder st.preorders l.variant.id channel with
      | some r => preorderAvailable ctx.reservation_enabled r
      | none => 0
    if l.quantity ≤ avail then
      Except.ok { st with preorders := bumpPreorder st.preorders l.variant.id channel l.quantity }
    else
      Except.error { variant_id := l.variant.id, requested := l.quantity, available := avail }
  else Except.ok st

/-- One line's allocation step: the body of the
`with traced_atomic_transaction():` block in `perform_mutation`
(`allocate_stocks` then `allocate_preorders`).  The transaction semantics are
modelled from the spec (§5): on an `InsufficientStock` error nothing of the
line's mutations persists, so the step returns either the fully updated
state or only the error. -/
def allocateLine (ctx : Ctx) (channel : String) (st : StockState)
    (l : OrderLine) : Except Shortage StockState :=
  match allocate_stocks ctx st l with
  | Except.error s => Except.error s
  | Except.ok st1 => allocate_preorders ctx st1 channel l

/-- The filter on line 91 of the source:
`line.variant.track_inventory or line.variant.is_preorder_active()`. -/
def eligibleLine (l : OrderLine) : Bool :=
  l.variant.track_inventory || l.variant.is_preorder_active

/-- Result of the allocation loop: stock state reached, the
`order_lines_info` list, the lines on which allocation was attempted, and
the `ValidationError` payload when an `InsufficientStock` was raised. -/
structure LoopResult where
  stock : StockState
  infos : List OrderLineInfo
  attempted : List OrderLine
  failure : Option (List Shortage)
deriving DecidableEq

/-- The `for line in order.lines.all():` loop of `perform_mutation`
(source lines 90–116): eligible lines are appended to `order_lines_info`
and allocated inside their own atomic block; the first `InsufficientStock`
is converted to validation errors and raised, stopping the loop. -/
def allocateLoop (ctx : Ctx) (channel : String) (st : StockState) :
    List OrderLine → LoopResult
  | [] => { stock := st, infos := [], attempted := [], failure := none }
  | l :: rest =>
    if eligibleLine l then
      match allocateLine ctx channel st l with
      | Except.ok st2 =>
        let r := allocateLoop ctx channel st2 rest
        { stock := r.stock, infos := mkLineInfo l :: r.infos,
          attempted := l :: r.attempted, failure := r.failure }
      | Except.error s =>
        { stock := st, infos := [mkLineInfo l], attempted := [l],
          failure := some [s] }
    else allocateLoop ctx channel st rest

/-- `DraftOrderComplete.update_user_fields` (source lines 40–48): with an
attached user, overwrite the order email from the user; with only a
non-empty email, attach the matching user or set `user` to `None` when the
lookup fails — never raising. -/
def update_user_fields (users : List User) (order : Order) : Order :=
  match order.user with
  | some u => { order with user_email := u.email }
  | none =>
    if order.user_email ≠ "" then
      { order with user := users.find? (fun u => u.email == order.user_email) }
    else order

/-- Shipping normalization (source lines 77–82): orders requiring no
shipping get their method name cleared, price zeroed in the order currency,
and any present shipping address deleted and dereferenced. -/
def normalize_shipping (o : Order) : Order :=
  if o.shipping_required then o
  else
    let o1 := { o with shipping_method_name := none,
                       shipping_price := zero_taxed_money o.currency }
    if o1.shipping_address.isSome then { o1 with shipping_address := none }
    else o1

/-- The order as written by `order.save()` on line 85: user fields resolved,
status set to Unfulfilled, shipping normalized, search document recomputed. -/
def savedOrder (ctx : Ctx) (order : Order) : Order :=
  let o1 := update_user_fields ctx.users order
  let o2 := { o1 with status := OrderStatus.unfulfilled }
  let o3 := normalize_shipping o2
  { o3 with search_document := ctx.searchDoc o3 }

/-- The error surface of the mutation (spec §7): the invalid-state
rejection, a rejection by `validate_draft_order`, and the aggregated
insufficient-stock failure. -/
inductive CompletionError
  | invalidState
  | invalidDraft
  | insufficientStock (errors : List Shortage)
deriving DecidableEq

/-- Mutation result: success or a raised validation error. -/
inductive MutResult
  | ok
  | err (e : CompletionError)
deriving DecidableEq

/-- Observable steps of one invocation, in order: order rows saved,
allocation attempts, and emitted `order_created` events. -/
inductive TraceStep
  | orderSaved (o : Order)
  | allocAttempted (l : OrderLine)
  | eventEmitted (info : OrderInfo)
deriving DecidableEq

/-- The world a mutation runs against: the order row and the stock state. -/
structure World where
  order : Order
  stock : StockState
deriving DecidableEq

/-- Outcome of one invocation: final persisted order row, final stock
state, the observable trace, and the returned result. -/
structure Outcome where
  order : Order
  stock : StockState
  trace : List TraceStep
  result : MutResult
deriving DecidableEq

/-- `DraftOrderComplete.perform_mutation` (source lines 61–134):
validate draft status, run `validate_draft_order`, resolve user fields, set
status to Unfulfilled, normalize shipping, recompute the search document,
save, allocate line by line, and emit `order_created` when no
`InsufficientStock` was raised. -/
def perform_mutation (ctx : Ctx) (w : World) : Outcome :=
  if w.order.is_draft then
    if ctx.draft_valid then
      let o := savedOrder ctx w.order
      let r := allocateLoop ctx o.channel w.stock o.lines
      match r.failure with
      | some errs =>
        { order := o, stock := r.stock,
          trace := TraceStep.orderSaved o :: r.attempted.map TraceStep.allocAttempted,
          result := MutResult.err (CompletionError.insufficientStock errs) }
      | none =>
        let info : OrderInfo :=
          { order := o, customer_email := o.get_customer_email,
            channel := o.channel, payment := o.get_last_payment,
            lines_data := r.infos }
        { order := o, stock := r.stock,
          trace := TraceStep.orderSaved o ::
            (r.attempted.map TraceStep.allocAttempted ++ [TraceStep.eventEmitted info]),
          result := MutResult.ok }
    else
      { order := w.order, stock := w.stock, trace := [],
        result := MutResult.err CompletionError.invalidDraft }
  else
    { order := w.order, stock := w.stock, trace := [],
      result := MutResult.err CompletionError.invalidState }

/-- The allocation attempts recorded in an outcome's trace. -/
def Outcome.attemptedLines (out : Outcome) : List OrderLine :=
  out.trace.filterMap fun s =>
    match s with
    | TraceStep.allocAttempted l => some l
    | _ => none

/-- The `order_created` events recorded in an outcome's trace. -/
def Outcome.events (out : Outcome) : List OrderInfo :=
  out.trace.filterMap fun s =>
    match s with
    | TraceStep.eventEmitted info => some info
    | _ => none

/-! Concrete test fixtures used to evaluate the embedded mutation. -/

def ctx0 : Ctx :=
  { users := [], candidates := ["A"], reservation_enabled := false,
    draft_valid := true, searchDoc := fun _ => "doc" }

def vTrack1 : Variant := { id := 1, track_inventory := true, is_preorder_active := false }

def vTrack2 : Variant := { id := 2, track_inventory := true, is_preorder_active := false }

def vPre : Variant := { id := 3, track_inventory := false, is_preorder_active := true }

def vSkip : Variant := { id := 4, track_inventory := false, is_preorder_active := false }

def baseOrder : Order :=
  { id := 1, status := OrderStatus.draft, user := none, user_email := "c@x.io",
    currency := "USD", shipping_required := false,
    shipping_method_name := some "DHL",
    shipping_price := { net := 5, gross := 6, currency := "USD" },
    shipping_address := some { id := 7 }, search_document := "",
    channel := "ch", payments := [41, 42], lines := [] }

/-- A draft order with two tracked lines, both short of stock. -/
def wFail : World :=
  { order := { baseOrder with lines :=
      [{ id := 10, variant := vTrack1, quantity := 5 },
       { id := 11, variant := vTrack2, quantity := 3 }] },
    stock :=
      { stocks :=
          [{ warehouse := "A", variant_id := 1, quantity_on_hand := 0,
             quantity_allocated := 0, quantity_reserved := 0 },
           { warehouse := "A", variant_id := 2, quantity_on_hand := 0,
             quantity_allocated := 0, quantity_reserved := 0 }],
        preorders := [] } }

/-- A draft order with a tracked line, a preorder line and a skipped line,
with enough stock and preorder capacity for both allocations to succeed. -/
def wOk : World :=
  { order := { baseOrder with lines :=
      [{ id := 10, variant := vTrack1, quantity := 2 },
       { id := 11, variant := vPre, quantity := 1 },
       { id := 12, variant := vSkip, quantity := 4 }] },
    stock :=
      { stocks :=
          [{ warehouse := "A", variant_id := 1, quantity_on_hand := 5,
             quantity_allocated := 0, quantity_reserved := 0 }],
        preorders :=
          [{ variant_id := 3, channel := "ch", capacity := 3,
             allocated := 0, reserved := 0 }] } }

/-- An order already moved to Unfulfilled. -/
def wNonDraft : World :=
  { order := { wFail.order with status := OrderStatus.unfulfilled },
    stock := wFail.stock }

/-! Field-preservation lemmas for the order-update pipeline. -/

theorem update_user_fields_preserves (us : List User) (o : Order) :
    (update_user_fields us o).shipping_required = o.shipping_required ∧
    (update_user_fields us o).shipping_method_name = o.shipping_method_name ∧
    (update_user_fields us o).shipping_price = o.shipping_price ∧
    (update_user_fields us o).shipping_address = o.shipping_address ∧
    (update_user_fields us o).currency = o.currency ∧
    (update_user_fields us o).lines = o.lines ∧
    (update_user_fields us o).channel = o.channel ∧
    (update_user_fields us o).payments = o.payments := by
  unfold update_user_fields
  split
  · exact ⟨rfl, rfl, rfl, rfl, rfl, rfl, rfl, rfl⟩
  · split
    · exact ⟨rfl, rfl, rfl, rfl, rfl, rfl, rfl, rfl⟩
    · exact ⟨rfl, rfl, rfl, rfl, rfl, rfl, rfl, rfl⟩

theorem savedOrder_status (ctx : Ctx) (o : Order) :
    (savedOrder ctx o).status = OrderStatus.unfulfilled := by
  unfold savedOrder normalize_shipping
  dsimp only
  split
  · rfl
  · split <;> rfl

theorem savedOrder_lines (ctx : Ctx) (o : Order) :
    (savedOrder ctx o).lines = o.lines := by
  unfold savedOrder normalize_shipping
  dsimp only
  have hp := update_user_fields_preserves ctx.users o
  split
  · exact hp.2.2.2.2.2.1
  · split <;> exact hp.2.2.2.2.2.1

theorem savedOrder_channel (ctx : Ctx) (o : Order) :
    (savedOrder ctx o).channel = o.channel := by
  unfold savedOrder normalize_shipping
  dsimp only
  have hp := update_user_fields_preserves ctx.users o
  split
  · exact hp.2.2.2.2.2.2.1
  · split <;> exact hp.2.2.2.2.2.2.1

theorem savedOrder_payments (ctx : Ctx) (o : Order) :
    (savedOrder ctx o).payments = o.payments := by
  unfold savedOrder normalize_shipping
  dsimp only
  have hp := update_user_fields_preserves ctx.users o
  split
  · exact hp.2.2.2.2.2.2.2
  · split <;> exact hp.2.2.2.2.2.2.2

theorem savedOrder_currency (ctx : Ctx) (o : Order) :
    (savedOrder ctx o).currency = o.currency := by
  unfold savedOrder normalize_shipping
  dsimp only
  have hp := update_user_fields_preserves ctx.users o
  split
  · exact hp.2.2.2.2.1
  · split <;> exact hp.2.2.2.2.1

theorem savedOrder_shipping_required (ctx : Ctx) (o : Order) :
    (savedOrder ctx o).shipping_required = o.shipping_required := by
  unfold savedOrder normalize_shipping
  dsimp only
  have hp := update_user_fields_preserves ctx.users o
  split
  · exact hp.1
  · split <;> exact hp.1

theorem savedOrder_shipping_kept (ctx : Ctx) (o : Order)
    (h : o.shipping_required = true) :
    (savedOrder ctx o).shipping_method_name = o.shipping_method_name ∧
    (savedOrder ctx o).shipping_price = o.shipping_price ∧
    (savedOrder ctx o).shipping_address = o.shipping_address := by
  unfold savedOrder normalize_shipping
  dsimp only
  have hp := update_user_fields_preserves ctx.users o
  rw [hp.1, h]
  simp only [if_true]
  exact ⟨hp.2.1, hp.2.2.1, hp.2.2.2.1⟩

theorem savedOrder_shipping_cleared (ctx : Ctx) (o : Order)
    (h : o.shipping_required = false) :
    (savedOrder ctx o).shipping_method_name = none ∧
    (savedOrder ctx o).shipping_price = zero_taxed_money o.currency ∧
    (savedOrder ctx o).shipping_address = none := by
  unfold savedOrder normalize_shipping
  dsimp only
  have hp := update_user_fields_preserves ctx.users o
  rw [hp.1, h]
  simp only [Bool.false_eq_true, if_false]
  split
  · exact ⟨rfl, by rw [hp.2.2.2.2.1], rfl⟩
  · refine ⟨rfl, by rw [hp.2.2.2.2.1], ?_⟩
    have hn : (update_user_fields ctx.users o).shipping_address = none := by
      rename_i hns
      exact Option.not_isSome_iff_eq_none.mp hns
    exact hn

/-! Branch lemmas for the allocation loop. -/

theorem allocateLoop_cons_skip (ctx : Ctx) (ch : String) (st : StockState)
    (l : OrderLine) (rest : List OrderLine) (h : eligibleLine l = false) :
    allocateLoop ctx ch st (l :: rest) = allocateLoop ctx ch st rest := by
  simp [allocateLoop, h]

theorem allocateLoop_cons_ok (ctx : Ctx) (ch : String) (st st2 : StockState)
    (l : OrderLine) (rest : List OrderLine) (he : eligibleLine l = true)
    (h : allocateLine ctx ch st l = Except.ok st2) :
    allocateLoop ctx ch st (l :: rest) =
      { stock := (allocateLoop ctx ch st2 rest).stock,
        infos := mkLineInfo l :: (allocateLoop ctx ch st2 rest).infos,
        attempted := l :: (allocateLoop ctx ch st2 rest).attempted,
        failure := (allocateLoop ctx ch st2 rest).failure } := by
  simp [allocateLoop, he, h]

theorem allocateLoop_cons_err (ctx : Ctx) (ch : String) (st : StockState)
    (l : OrderLine) (rest : List OrderLine) (s : Shortage)
    (he : eligibleLine l = true)
    (h : allocateLine ctx ch st l = Except.error s) :
    allocateLoop ctx ch st (l :: rest) =
      { stock := st, infos := [mkLineInfo l], attempted := [l],
        failure := some [s] } := by
  simp [allocateLoop, he, h]

theorem allocateLoop_attempted_eligible (ctx : Ctx) (ch : String) :
    ∀ (lines : List OrderLine) (st : StockState) (l : OrderLine),
      l ∈ (allocateLoop ctx ch st lines).attempted → eligibleLine l = true := by
  intro lines
  induction lines with
  | nil => intro st l hl; simp [allocateLoop] at hl
  | cons a rest ih =>
    intro st l hl
    by_cases he : eligibleLine a = true
    · cases hal : allocateLine ctx ch st a with
      | ok st2 =>
        rw [allocateLoop_cons_ok ctx ch st st2 a rest he hal] at hl
        rcases List.mem_cons.mp hl with h1 | h2
        · exact h1 ▸ he
        · exact ih st2 l h2
      | error s =>
        rw [allocateLoop_cons_err ctx ch st a rest s he hal] at hl
        simp at hl
        exact hl ▸ he
    · rw [allocateLoop_cons_skip ctx ch st a rest (Bool.eq_false_iff.mpr he)] at hl
      exact ih st l hl

theorem allocateLoop_infos_eligible (ctx : Ctx) (ch : String) :
    ∀ (lines : List OrderLine) (st : StockState) (li : OrderLineInfo),
      li ∈ (allocateLoop ctx ch st lines).infos → eligibleLine li.line = true := by
  intro lines
  induction lines with
  | nil => intro st li hl; simp [allocateLoop] at hl
  | cons a rest ih =>
    intro st li hl
    by_cases he : eligibleLine a = true
    · cases hal : allocateLine ctx ch st a with
      | ok st2 =>
        rw [allocateLoop_cons_ok ctx ch st st2 a rest he hal] at hl
        rcases List.mem_cons.mp hl with h1 | h2
        · rw [h1]; exact he
        · exact ih st2 li h2
      | error s =>
        rw [allocateLoop_cons_err ctx ch st a rest s he hal] at hl
        simp at hl
        rw [hl]; exact he
    · rw [allocateLoop_cons_skip ctx ch st a rest (Bool.eq_false_iff.mpr he)] at hl
      exact ih st li hl

/-- When the loop fails, the line list splits into a prefix that was fully
processed, the failing line, and an untouched suffix: the attempts are
exactly the eligible prefix lines plus the failing line, the stock is the
one reached after the prefix, the raised error holds a single line's
shortage, and the failing line's allocation fails there. -/
theorem allocateLoop_failure_decomp (ctx : Ctx) (ch : String) :
    ∀ (lines : List OrderLine) (st : StockState) (errs : List Shortage),
      (allocateLoop ctx ch st lines).failure = some errs →
      ∃ pre l post s,
        lines = pre ++ l :: post ∧
        eligibleLine l = true ∧
        errs = [s] ∧
        (allocateLoop ctx ch st lines).attempted =
          pre.filter (fun x => eligibleLine x) ++ [l] ∧
        (allocateLoop ctx ch st lines).stock =
          (allocateLoop ctx ch st pre).stock ∧
        allocateLine ctx ch (allocateLoop ctx ch st pre).stock l =
          Except.error s := by
  intro lines
  induction lines with
  | nil => intro st errs h; simp [allocateLoop] at h
  | cons a rest ih =>
    intro st errs h
    by_cases he : eligibleLine a = true
    · cases hal : allocateLine ctx ch st a with
      | ok st2 =>
        rw [allocateLoop_cons_ok ctx ch st st2 a rest he hal] at h
        obtain ⟨pre, l, post, s, hsplit, hel, herrs, hatt, hstock, hfail⟩ :=
          ih st2 errs h
        refine ⟨a :: pre, l, post, s, by rw [hsplit]; rfl, hel, herrs, ?_, ?_, ?_⟩
        · rw [allocateLoop_cons_ok ctx ch st st2 a rest he hal]
          simp only [List.filter_cons, he, hatt]
          rfl
        · rw [allocateLoop_cons_ok ctx ch st st2 a rest he hal,
              allocateLoop_cons_ok ctx ch st st2 a pre he hal]
          exact hstock
        · rw [allocateLoop_cons_ok ctx ch st st2 a pre he hal]
          exact hfail
      | error s =>
        rw [allocateLoop_cons_err ctx ch st a rest s he hal] at h
        simp only at h
        obtain rfl : errs = [s] := by injection h with h'; exact h'.symm ▸ rfl
        refine ⟨[], a, rest, s, rfl, he, rfl, ?_, ?_, ?_⟩
        · rw [allocateLoop_cons_err ctx ch st a rest s he hal]; rfl
        · rw [allocateLoop_cons_err ctx ch st a rest s he hal]; rfl
        · exact hal
    · have he' : eligibleLine a = false := Bool.eq_false_iff.mpr he
      rw [allocateLoop_cons_skip ctx ch st a rest he'] at h
      obtain ⟨pre, l, post, s, hsplit, hel, herrs, hatt, hstock, hfail⟩ :=
        ih st errs h
      refine ⟨a :: pre, l, post, s, by rw [hsplit]; rfl, hel, herrs, ?_, ?_, ?_⟩
      · rw [allocateLoop_cons_skip ctx ch st a rest he']
        simp only [List.filter_cons, he']
        exact hatt
      · rw [allocateLoop_cons_skip ctx ch st a rest he',
            allocateLoop_cons_skip ctx ch st a pre he']
        exact hstock
      · rw [allocateLoop_cons_skip ctx ch st a pre he']
        exact hfail

/-- When the loop finishes without a shortage, every eligible line was
attempted and recorded, in order. -/
theorem allocateLoop_success (ctx : Ctx) (ch : String) :
    ∀ (lines : List OrderLine) (st : StockState),
      (allocateLoop ctx ch st lines).failure = none →
      (allocateLoop ctx ch st lines).infos =
        (lines.filter (fun x => eligibleLine x)).map mkLineInfo ∧
      (allocateLoop ctx ch st lines).attempted =
        lines.filter (fun x => eligibleLine x) := by
  intro lines
  induction lines with
  | nil => intro st _; exact ⟨rfl, rfl⟩
  | cons a rest ih =>
    intro st h
    by_cases he : eligibleLine a = true
    · cases hal : allocateLine ctx ch st a with
      | ok st2 =>
        rw [allocateLoop_cons_ok ctx ch st st2 a rest he hal] at h ⊢
        obtain ⟨h1, h2⟩ := ih st2 h
        simp only [List.filter_cons, he, List.map_cons, h1, h2]
        exact ⟨rfl, rfl⟩
      | error s =>
        rw [allocateLoop_cons_err ctx ch st a rest s he hal] at h
        simp at h
    · have he' : eligibleLine a = false := Bool.eq_false_iff.mpr he
      rw [allocateLoop_cons_skip ctx ch st a rest he'] at h ⊢
      simp only [List.filter_cons, he']
      exact ih st h

/-! Arithmetic of the planner and the applier. -/

/-- The quantities of a greedy plan plus the unsatisfied remainder always
add up to the requested quantity. -/
theorem planLine_sum (stocks : List StockRecord) (mode : Bool) (vid : Nat) :
    ∀ (ws : List String) (remaining : Nat),
      ((planLine stocks mode vid ws remaining).1.map Prod.snd).sum +
        (planLine stocks mode vid ws remaining).2 = remaining := by
  intro ws
  induction ws with
  | nil => intro remaining; simp [planLine]
  | cons w ws ih =>
    intro remaining
    unfold planLine
    by_cases h0 : remaining = 0
    · simp [h0]
    · simp only [h0, if_false]
      set avail :=
        (match findStock stocks w vid with
         | some r => stockAvailable mode r
         | none => 0) with havail
      set take := min remaining avail with htake
      have hle : take ≤ remaining := Nat.min_le_left _ _
      have ihr := ih (remaining - take)
      by_cases ht : take = 0
      · simp only [ht, if_true]
        simpa [ht] using ihr
      · simp only [ht, if_false, List.map_cons, List.sum_cons]
        omega

/-- Every warehouse the greedy planner plans from has a Stock Ledger row. -/
theorem planLine_mem (stocks : List StockRecord) (mode : Bool) (vid : Nat) :
    ∀ (ws : List String) (remaining : Nat) (w : String) (q : Nat),
      (w, q) ∈ (planLine stocks mode vid ws remaining).1 →
      (findStock stocks w vid).isSome = true := by
  intro ws
  induction ws with
  | nil => intro remaining w q h; simp [planLine] at h
  | cons w' ws ih =>
    intro remaining w q h
    unfold planLine at h
    by_cases h0 : remaining = 0
    · simp [h0] at h
    · simp only [h0, if_false] at h
      by_cases ht :
          (min remaining
            (match findStock stocks w' vid with
             | some r => stockAvailable mode r
             | none => 0)) = 0
      · simp only [ht, if_true] at h
        exact ih _ w q h
      · simp only [ht, if_false] at h
        rcases List.mem_cons.mp h with h1 | h2
        · injection h1 with hw hq
          subst hw
          cases hf : findStock stocks w vid with
          | some r => rfl
          | none => rw [hf] at ht; simp at ht
        · exact ih _ w q h2

/-- Incrementing the allocated counter of an existing row adds exactly the
increment to the variant's total allocated quantity. -/
theorem bumpAllocated_total (w : String) (vid : Nat) (q : Nat) :
    ∀ (stocks : List StockRecord),
      (findStock stocks w vid).isSome = true →
      totalAllocated (bumpAllocated stocks w vid q) vid =
        totalAllocated stocks vid + q := by
  intro stocks
  induction stocks with
  | nil => intro h; simp [findStock] at h
  | cons r rest ih =>
    intro h
    unfold bumpAllocated
    by_cases hm : r.warehouse = w ∧ r.variant_id = vid
    · rw [if_pos hm]
      unfold totalAllocated
      dsimp only
      rw [if_pos hm.2, if_pos hm.2]
      omega
    · rw [if_neg hm]
      unfold findStock at h
      rw [if_neg hm] at h
      unfold totalAllocated
      rw [ih h]
      omega

/-- Bumping an allocated counter never creates or removes rows: lookups
still succeed for exactly the pairs they succeeded for before. -/
theorem bumpAllocated_findStock (w' : String) (vid' : Nat) (q : Nat)
    (w : String) (vid : Nat) :
    ∀ (stocks : List StockRecord),
      (findStock (bumpAllocated stocks w' vid' q) w vid).isSome =
        (findStock stocks w vid).isSome := by
  intro stocks
  induction stocks with
  | nil => rfl
  | cons r rest ih =>
    unfold bumpAllocated
    by_cases hm : r.warehouse = w' ∧ r.variant_id = vid'
    · rw [if_pos hm]
      unfold findStock
      dsimp only
      by_cases hm2 : r.warehouse = w ∧ r.variant_id = vid
      · rw [if_pos hm2, if_pos hm2]; rfl
      · rw [if_neg hm2, if_neg hm2]
    · rw [if_neg hm]
      unfold findStock
      by_cases hm2 : r.warehouse = w ∧ r.variant_id = vid
      · rw [if_pos hm2, if_pos hm2]
      · rw [if_neg hm2, if_neg hm2]; exact ih

/-- Applying a plan whose rows all exist adds the plan's total quantity to
the variant's allocated total. -/
theorem applyPlan_total (vid : Nat) :
    ∀ (p : List (String × Nat)) (stocks : List StockRecord),
      (∀ wq ∈ p, (findStock stocks wq.1 vid).isSome = true) →
      totalAllocated (applyPlan stocks vid p) vid =
        totalAllocated stocks vid + (p.map Prod.snd).sum := by
  intro p
  induction p with
  | nil => intro stocks _; simp [applyPlan]
  | cons wq rest ih =>
    intro stocks hmem
    obtain ⟨w, q⟩ := wq
    unfold applyPlan
    have h1 : (findStock stocks w vid).isSome = true :=
      hmem (w, q) (List.mem_cons_self _ _)
    have h2 : ∀ wq ∈ rest,
        (findStock (bumpAllocated stocks w vid q) wq.1 vid).isSome = true := by
      intro wq hwq
      rw [bumpAllocated_findStock]
      exact hmem wq (List.mem_cons_of_mem _ hwq)
    rw [ih (bumpAllocated stocks w vid q) h2, bumpAllocated_total w vid q stocks h1]
    simp only [List.map_cons, List.sum_cons]
    omega

/-- A successful plan covers the full requested quantity from existing
Stock Ledger rows. -/
theorem plan_ok (stocks : List StockRecord) (candidates : List String)
    (mode : Bool) (vid : Nat) (qty : Nat) (p : List (String × Nat))
    (h : plan stocks candidates mode vid qty = Except.ok p) :
    (p.map Prod.snd).sum = qty ∧
    ∀ wq ∈ p, (findStock stocks wq.1 vid).isSome = true := by
  unfold plan at h
  by_cases h0 : (planLine stocks mode vid candidates qty).2 = 0
  · simp only [h0, if_true] at h
    obtain rfl : (planLine stocks mode vid candidates qty).1 = p := by
      injection h
    constructor
    · have := planLine_sum stocks mode vid candidates qty
      omega
    · intro wq hwq
      obtain ⟨w, q⟩ := wq
      exact planLine_mem stocks mode vid candidates qty w q hwq
  · simp [h0] at h

/-- Incrementing an existing preorder pool adds exactly the increment to
the (variant, channel) allocated total. -/
theorem bumpPreorder_total (vid : Nat) (ch : String) (q : Nat) :
    ∀ (ps : List PreorderRecord),
      (findPreorder ps vid ch).isSome = true →
      preorderAllocated (bumpPreorder ps vid ch q) vid ch =
        preorderAllocated ps vid ch + q := by
  intro ps
  induction ps with
  | nil => intro h; simp [findPreorder] at h
  | cons r rest ih =>
    intro h
    unfold bumpPreorder
    by_cases hm : r.variant_id = vid ∧ r.channel = ch
    · rw [if_pos hm]
      unfold preorderAllocated
      dsimp only
      rw [if_pos hm, if_pos hm]
      omega
    · rw [if_neg hm]
      unfold findPreorder at h
      rw [if_neg hm] at h
      unfold preorderAllocated
      rw [ih h]
      omega

/-- Bumping a pool that does not exist is a no-op. -/
theorem bumpPreorder_of_none (vid : Nat) (ch : String) (q : Nat) :
    ∀ (ps : List PreorderRecord),
      findPreorder ps vid ch = none → bumpPreorder ps vid ch q = ps := by
  intro ps
  induction ps with
  | nil => intro _; rfl
  | cons r rest ih =>
    intro h
    unfold findPreorder at h
    by_cases hm : r.variant_id = vid ∧ r.channel = ch
    · rw [if_pos hm] at h; cases h
    · rw [if_neg hm] at h
      unfold bumpPreorder
      rw [if_neg hm, ih h]

/-- A successful stock-path allocation adds exactly the line's quantity to
the variant's allocated total and leaves the preorder pools untouched. -/
theorem allocate_stocks_ok (ctx : Ctx) (st : StockState) (l : OrderLine)
    (st2 : StockState)
    (hs : resolveStrategy l.variant = AllocationStrategy.stock)
    (h : allocate_stocks ctx st l = Except.ok st2) :
    totalAllocated st2.stocks l.variant.id =
      totalAllocated st.stocks l.variant.id + l.quantity ∧
    st2.preorders = st.preorders := by
  unfold allocate_stocks at h
  rw [if_pos hs] at h
  cases hp : plan st.stocks ctx.candidates ctx.reservation_enabled
      l.variant.id l.quantity with
  | ok p =>
    rw [hp] at h
    injection h with h'
    subst h'
    obtain ⟨hsum, hmem⟩ :=
      plan_ok st.stocks ctx.candidates ctx.reservation_enabled
        l.variant.id l.quantity p hp
    refine ⟨?_, rfl⟩
    dsimp only
    rw [applyPlan_total l.variant.id p st.stocks hmem, hsum]
  | error s => rw [hp] at h; cases h

/-- A successful preorder allocation adds exactly the line's quantity to
the (variant, channel) pool and leaves the Stock Ledger untouched. -/
theorem allocate_preorders_ok (ctx : Ctx) (st : StockState) (ch : String)
    (l : OrderLine) (st2 : StockState)
    (hs : resolveStrategy l.variant = AllocationStrategy.preorder)
    (h : allocate_preorders ctx st ch l = Except.ok st2) :
    preorderAllocated st2.preorders l.variant.id ch =
      preorderAllocated st.preorders l.variant.id ch + l.quantity ∧
    st2.stocks = st.stocks := by
  unfold allocate_preorders at h
  rw [if_pos hs] at h
  dsimp only at h
  split at h
  · injection h with h'
    subst h'
    refine ⟨?_, rfl⟩
    dsimp only
    cases hf : findPreorder st.preorders l.variant.id ch with
    | some r =>
      rw [bumpPreorder_total l.variant.id ch l.quantity st.preorders
        (by rw [hf]; rfl)]
    | none =>
      rw [bumpPreorder_of_none l.variant.id ch l.quantity st.preorders hf]
      rename_i hle
      rw [hf] at hle
      simp only [Nat.le_zero] at hle
      omega
  · cases h

/-- For a line routed to the stock path, the atomic per-line step is the
stock allocator alone: the preorder allocator leaves the state untouched. -/
theorem allocateLine_stock (ctx : Ctx) (ch : String) (st : StockState)
    (l : OrderLine)
    (hs : resolveStrategy l.variant = AllocationStrategy.stock) :
    allocateLine ctx ch st l = allocate_stocks ctx st l := by
  unfold allocateLine
  cases h : allocate_stocks ctx st l with
  | error s => rfl
  | ok st1 =>
    dsimp only
    unfold allocate_preorders
    rw [if_neg (by rw [hs]; intro hc; cases hc)]

/-- For a line routed to the preorder path, the atomic per-line step is the
preorder allocator alone: the stock allocator leaves the state untouched. -/
theorem allocateLine_preorder (ctx : Ctx) (ch : String) (st : StockState)
    (l : OrderLine)
    (hs : resolveStrategy l.variant = AllocationStrategy.preorder) :
    allocateLine ctx ch st l = allocate_preorders ctx st ch l := by
  unfold allocateLine
  have h : allocate_stocks ctx st l = Except.ok st := by
    unfold allocate_stocks
    rw [if_neg (by rw [hs]; intro hc; cases hc)]
  rw [h]

/-- An eligible line resolves to one of the two allocation strategies. -/
theorem eligible_strategy (l : OrderLine) (he : eligibleLine l = true) :
    resolveStrategy l.variant = AllocationStrategy.stock ∨
    resolveStrategy l.variant = AllocationStrategy.preorder := by
  by_cases hp : l.variant.is_preorder_active = true
  · right; simp [resolveStrategy, hp]
  · have hp' : l.variant.is_preorder_active = false := by
      simpa using hp
    have ht : l.variant.track_inventory = true := by
      unfold eligibleLine at he
      rw [hp'] at he
      simpa using he
    left; simp [resolveStrategy, hp', ht]

/-! Characterization of `perform_mutation` by validation outcome. -/

theorem perform_mutation_not_draft (ctx : Ctx) (w : World)
    (h : w.order.is_draft = false) :
    perform_mutation ctx w =
      { order := w.order, stock := w.stock, trace := [],
        result := MutResult.err CompletionError.invalidState } := by
  simp [perform_mutation, h]

theorem perform_mutation_fail (ctx : Ctx) (w : World) (errs : List Shortage)
    (h1 : w.order.is_draft = true) (h2 : ctx.draft_valid = true)
    (h3 : (allocateLoop ctx (savedOrder ctx w.order).channel w.stock
      (savedOrder ctx w.order).lines).failure = some errs) :
    perform_mutation ctx w =
      { order := savedOrder ctx w.order,
        stock := (allocateLoop ctx (savedOrder ctx w.order).channel w.stock
          (savedOrder ctx w.order).lines).stock,
        trace := TraceStep.orderSaved (savedOrder ctx w.order) ::
          ((allocateLoop ctx (savedOrder ctx w.order).channel w.stock
            (savedOrder ctx w.order).lines).attempted.map TraceStep.allocAttempted),
        result := MutResult.err (CompletionError.insufficientStock errs) } := by
  unfold perform_mutation
  rw [h1, h2]
  simp only [if_true]
  rw [h3]

theorem perform_mutation_ok (ctx : Ctx) (w : World)
    (h1 : w.order.is_draft = true) (h2 : ctx.draft_valid = true)
    (h3 : (allocateLoop ctx (savedOrder ctx w.order).channel w.stock
      (savedOrder ctx w.order).lines).failure = none) :
    perform_mutation ctx w =
      { order := savedOrder ctx w.order,
        stock := (allocateLoop ctx (savedOrder ctx w.order).channel w.stock
          (savedOrder ctx w.order).lines).stock,
        trace := TraceStep.orderSaved (savedOrder ctx w.order) ::
          ((allocateLoop ctx (savedOrder ctx w.order).channel w.stock
            (savedOrder ctx w.order).lines).attempted.map TraceStep.allocAttempted ++
           [TraceStep.eventEmitted
             { order := savedOrder ctx w.order,
               customer_email := (savedOrder ctx w.order).get_customer_email,
               channel := (savedOrder ctx w.order).channel,
               payment := (savedOrder ctx w.order).get_last_payment,
               lines_data := (allocateLoop ctx (savedOrder ctx w.order).channel
                 w.stock (savedOrder ctx w.order).lines).infos }]),
        result := MutResult.ok } := by
  unfold perform_mutation
  rw [h1, h2]
  simp only [if_true]
  rw [h3]

theorem perform_mutation_not_valid (ctx : Ctx) (w : World)
    (h1 : w.order.is_draft = true) (h2 : ctx.draft_valid = false) :
    perform_mutation ctx w =
      { order := w.order, stock := w.stock, trace := [],
        result := MutResult.err CompletionError.invalidDraft } := by
  simp [perform_mutation, h1, h2]

/-! Reading attempts and events off the traces the mutation produces. -/

theorem attempted_filterMap (att : List OrderLine) :
    List.filterMap
      (fun s =>
        match s with
        | TraceStep.allocAttempted l => some l
        | _ => none)
      (att.map TraceStep.allocAttempted) = att := by
  induction att with
  | nil => rfl
  | cons a r ih =>
    simp only [List.map_cons, List.filterMap_cons]
    rw [ih]

theorem events_filterMap_attempts (att : List OrderLine) :
    List.filterMap
      (fun s =>
        match s with
        | TraceStep.eventEmitted info => some info
        | _ => none)
      (att.map TraceStep.allocAttempted) = [] := by
  induction att with
  | nil => rfl
  | cons a r ih =>
    simp only [List.map_cons, List.filterMap_cons]
    exact ih

theorem attemptedLines_mk_fail (o : Order) (st : StockState)
    (att : List OrderLine) (res : MutResult) :
    Outcome.attemptedLines
      { order := o, stock := st,
        trace := TraceStep.orderSaved o :: att.map TraceStep.allocAttempted,
        result := res } = att := by
  unfold Outcome.attemptedLines
  simp only [List.filterMap_cons]
  exact attempted_filterMap att

theorem attemptedLines_mk_ok (o : Order) (st : StockState)
    (att : List OrderLine) (info : OrderInfo) (res : MutResult) :
    Outcome.attemptedLines
      { order := o, stock := st,
        trace := TraceStep.orderSaved o ::
          (att.map TraceStep.allocAttempted ++ [TraceStep.eventEmitted info]),
        result := res } = att := by
  unfold Outcome.attemptedLines
  simp only [List.filterMap_cons, List.filterMap_append]
  rw [attempted_filterMap att]
  simp

theorem events_mk_fail (o : Order) (st : StockState)
    (att : List OrderLine) (res : MutResult) :
    Outcome.events
      { order := o, stock := st,
        trace := TraceStep.orderSaved o :: att.map TraceStep.allocAttempted,
        result := res } = [] := by
  unfold Outcome.events
  simp only [List.filterMap_cons]
  exact events_filterMap_attempts att

theorem events_mk_ok (o : Order) (st : StockState)
    (att : List OrderLine) (info : OrderInfo) (res : MutResult) :
    Outcome.events
      { order := o, stock := st,
        trace := TraceStep.orderSaved o ::
          (att.map TraceStep.allocAttempted ++ [TraceStep.eventEmitted info]),
        result := res } = [info] := by
  unfold Outcome.events
  simp only [List.filterMap_cons, List.filterMap_append]
  rw [events_filterMap_attempts att]
  simp

/-! The claims. -/

/-- C2: for every order not in Draft status (including one already moved to
Unfulfilled), completion fails with the invalid-state error and performs no
mutation: the order row and the stock state are untouched and the trace is
empty — no save, no allocation, no completion event. -/
theorem non_draft_completion_no_mutation (ctx : Ctx) (w : World)
    (h : w.order.status ≠ OrderStatus.draft) :
    (perform_mutation ctx w).result =
      MutResult.err CompletionError.invalidState ∧
    (perform_mutation ctx w).order = w.order ∧
    (perform_mutation ctx w).stock = w.stock ∧
    (perform_mutation ctx w).trace = [] := by
  have hd : w.order.is_draft = false := by
    unfold Order.is_draft
    cases hs : w.order.status
    · exact absurd hs h
    all_goals rfl
  rw [perform_mutation_not_draft ctx w hd]
  exact ⟨rfl, rfl, rfl, rfl⟩

/-- C2 witness: re-invoking completion on `wNonDraft`, an order already
moved to Unfulfilled, fails with the invalid-state error and leaves
everything untouched. -/
theorem non_draft_completion_no_mutation_witness :
    wNonDraft.order.status ≠ OrderStatus.draft ∧
    ((perform_mutation ctx0 wNonDraft).result =
        MutResult.err CompletionError.invalidState ∧
      (perform_mutation ctx0 wNonDraft).order = wNonDraft.order ∧
      (perform_mutation ctx0 wNonDraft).stock = wNonDraft.stock ∧
      (perform_mutation ctx0 wNonDraft).trace = []) :=
  ⟨by decide, non_draft_completion_no_mutation ctx0 wNonDraft (by decide)⟩

/-- C7: completion of a validated draft clears the shipping method name,
zeroes the shipping price in the order's currency and releases the shipping
address when the order requires no shipping; orders requiring shipping keep
all three fields unchanged. -/
theorem shipping_normalization (ctx : Ctx) (w : World)
    (h1 : w.order.is_draft = true) (h2 : ctx.draft_valid = true) :
    (w.order.shipping_required = false →
      (perform_mutation ctx w).order.shipping_method_name = none ∧
      (perform_mutation ctx w).order.shipping_price =
        zero_taxed_money w.order.currency ∧
      (perform_mutation ctx w).order.shipping_address = none) ∧
    (w.order.shipping_required = true →
      (perform_mutation ctx w).order.shipping_method_name =
        w.order.shipping_method_name ∧
      (perform_mutation ctx w).order.shipping_price = w.order.shipping_price ∧
      (perform_mutation ctx w).order.shipping_address =
        w.order.shipping_address) := by
  have horder : (perform_mutation ctx w).order = savedOrder ctx w.order := by
    cases h3 : (allocateLoop ctx (savedOrder ctx w.order).channel w.stock
        (savedOrder ctx w.order).lines).failure with
    | some errs => rw [perform_mutation_fail ctx w errs h1 h2 h3]
    | none => rw [perform_mutation_ok ctx w h1 h2 h3]
  rw [horder]
  constructor
  · intro hreq
    have hc := savedOrder_shipping_cleared ctx w.order hreq
    exact ⟨hc.1, hc.2.1, hc.2.2⟩
  · intro hreq
    have hk := savedOrder_shipping_kept ctx w.order hreq
    exact ⟨hk.1, hk.2.1, hk.2.2⟩

/-- C7 witness: `wOk` requires no shipping and carries a shipping address;
after completion the method name and the address are cleared. -/
theorem shipping_normalization_witness :
    wOk.order.is_draft = true ∧ ctx0.draft_valid = true ∧
    wOk.order.shipping_required = false ∧
    (perform_mutation ctx0 wOk).order.shipping_method_name = none ∧
    (perform_mutation ctx0 wOk).order.shipping_price =
      zero_taxed_money wOk.order.currency ∧
    (perform_mutation ctx0 wOk).order.shipping_address = none := by
  have h := (shipping_normalization ctx0 wOk (by decide) rfl).1 (by decide)
  exact ⟨by decide, rfl, by decide, h.1, h.2.1, h.2.2⟩

/-- C6: on a validated draft the state transition is persisted first: the
trace begins with the save of the order in Unfulfilled status, and every
allocation attempt in the trace is preceded by a save of an order whose
status is Unfulfilled. -/
theorem status_saved_before_allocation (ctx : Ctx) (w : World)
    (h1 : w.order.is_draft = true) (h2 : ctx.draft_valid = true) :
    (∃ o', (perform_mutation ctx w).trace.head? =
        some (TraceStep.orderSaved o') ∧
      o'.status = OrderStatus.unfulfilled) ∧
    (∀ i l, (perform_mutation ctx w).trace.get? i =
        some (TraceStep.allocAttempted l) →
      ∃ j o', j < i ∧
        (perform_mutation ctx w).trace.get? j =
          some (TraceStep.orderSaved o') ∧
        o'.status = OrderStatus.unfulfilled) := by
  have htr : ∃ tail, (perform_mutation ctx w).trace =
      TraceStep.orderSaved (savedOrder ctx w.order) :: tail := by
    cases h3 : (allocateLoop ctx (savedOrder ctx w.order).channel w.stock
        (savedOrder ctx w.order).lines).failure with
    | some errs => exact ⟨_, by rw [perform_mutation_fail ctx w errs h1 h2 h3]⟩
    | none => exact ⟨_, by rw [perform_mutation_ok ctx w h1 h2 h3]⟩
  obtain ⟨tail, htr⟩ := htr
  constructor
  · exact ⟨savedOrder ctx w.order, by rw [htr]; rfl,
      savedOrder_status ctx w.order⟩
  · intro i l hi
    refine ⟨0, savedOrder ctx w.order, ?_, by rw [htr]; rfl,
      savedOrder_status ctx w.order⟩
    cases i with
    | zero => rw [htr] at hi; simp at hi
    | succ n => exact Nat.succ_pos n

/-- C6 witness: on `wOk` the trace starts with the save of the Unfulfilled
order, before any allocation attempt. -/
theorem status_saved_before_allocation_witness :
    wOk.order.is_draft = true ∧ ctx0.draft_valid = true ∧
    ∃ o', (perform_mutation ctx0 wOk).trace.head? =
        some (TraceStep.orderSaved o') ∧
      o'.status = OrderStatus.unfulfilled :=
  ⟨by decide, rfl, (status_saved_before_allocation ctx0 wOk (by decide) rfl).1⟩

/-- C3: when completion of a validated draft fails with insufficient stock,
the persisted order keeps the already-applied mutations — it is exactly the
saved normalized order, in Unfulfilled status, with shipping cleared when
not required — and allocation was attempted only on the eligible lines up
to and including the failing one, never on a later line. -/
theorem failed_allocation_keeps_saved_order (ctx : Ctx) (w : World)
    (errs : List Shortage)
    (h1 : w.order.is_draft = true) (h2 : ctx.draft_valid = true)
    (hres : (perform_mutation ctx w).result =
      MutResult.err (CompletionError.insufficientStock errs)) :
    (perform_mutation ctx w).order = savedOrder ctx w.order ∧
    (perform_mutation ctx w).order.status = OrderStatus.unfulfilled ∧
    (w.order.shipping_required = false →
      (perform_mutation ctx w).order.shipping_method_name = none ∧
      (perform_mutation ctx w).order.shipping_address = none) ∧
    ∃ pre l post,
      w.order.lines = pre ++ l :: post ∧
      eligibleLine l = true ∧
      (perform_mutation ctx w).attemptedLines =
        pre.filter (fun x => eligibleLine x) ++ [l] := by
  cases h3 : (allocateLoop ctx (savedOrder ctx w.order).channel w.stock
      (savedOrder ctx w.order).lines).failure with
  | none =>
    rw [perform_mutation_ok ctx w h1 h2 h3] at hres
    cases hres
  | some errs2 =>
    rw [perform_mutation_fail ctx w errs2 h1 h2 h3] at hres ⊢
    obtain ⟨pre, l, post, s, hsplit, hel, _, hatt, _, _⟩ :=
      allocateLoop_failure_decomp ctx (savedOrder ctx w.order).channel
        (savedOrder ctx w.order).lines w.stock errs2 h3
    refine ⟨rfl, savedOrder_status ctx w.order, ?_, pre, l, post, ?_, hel, ?_⟩
    · intro hreq
      have hc := savedOrder_shipping_cleared ctx w.order hreq
      exact ⟨hc.1, hc.2.2⟩
    · rw [← savedOrder_lines ctx w.order]; exact hsplit
    · rw [attemptedLines_mk_fail]
      exact hatt

/-- C3 witness: on `wFail` the failed completion leaves the order saved as
Unfulfilled with shipping cleared, and only the first line was attempted. -/
theorem failed_allocation_keeps_saved_order_witness :
    wFail.order.is_draft = true ∧ ctx0.draft_valid = true ∧
    (perform_mutation ctx0 wFail).result =
      MutResult.err (CompletionError.insufficientStock
        [{ variant_id := 1, requested := 5, available := 0 }]) ∧
    (perform_mutation ctx0 wFail).order.status = OrderStatus.unfulfilled ∧
    ∃ pre l post,
      wFail.order.lines = pre ++ l :: post ∧
      eligibleLine l = true ∧
      (perform_mutation ctx0 wFail).attemptedLines =
        pre.filter (fun x => eligibleLine x) ++ [l] := by
  have h := failed_allocation_keeps_saved_order ctx0 wFail
    [{ variant_id := 1, requested := 5, available := 0 }] (by decide) rfl rfl
  exact ⟨by decide, rfl, rfl, h.2.1, h.2.2.2⟩

/-- C1 counterexample: in `wFail` both lines lack stock — each line's plan
fails on the initial stock state — yet the completion failure reports only
the first line's shortage: variant 2 does not appear in the aggregated
error at all, so shortages are not collected across all lines. -/
theorem first_failure_not_aggregated_cex :
    plan wFail.stock.stocks ctx0.candidates false 1 5 =
      Except.error { variant_id := 1, requested := 5, available := 0 } ∧
    plan wFail.stock.stocks ctx0.candidates false 2 3 =
      Except.error { variant_id := 2, requested := 3, available := 0 } ∧
    (perform_mutation ctx0 wFail).result =
      MutResult.err (CompletionError.insufficientStock
        [{ variant_id := 1, requested := 5, available := 0 }]) ∧
    ∀ s ∈ [({ variant_id := 1, requested := 5, available := 0 } : Shortage)],
      s.variant_id ≠ 2 :=
  ⟨rfl, rfl, rfl, by decide⟩

/-- C1 (amended): when completion fails with insufficient stock the raised
failure carries the shortage report of a single line — the first one that
fails — rather than the merged shortages of all insufficient lines. -/
theorem insufficient_stock_reports_single_line (ctx : Ctx) (w : World)
    (errs : List Shortage)
    (hres : (perform_mutation ctx w).result =
      MutResult.err (CompletionError.insufficientStock errs)) :
    ∃ s, errs = [s] := by
  by_cases h1 : w.order.is_draft = true
  · by_cases h2 : ctx.draft_valid = true
    · cases h3 : (allocateLoop ctx (savedOrder ctx w.order).channel w.stock
          (savedOrder ctx w.order).lines).failure with
      | none =>
        rw [perform_mutation_ok ctx w h1 h2 h3] at hres
        cases hres
      | some errs2 =>
        rw [perform_mutation_fail ctx w errs2 h1 h2 h3] at hres
        obtain ⟨_, _, _, s, _, _, herrs, _, _, _⟩ :=
          allocateLoop_failure_decomp ctx (savedOrder ctx w.order).channel
            (savedOrder ctx w.order).lines w.stock errs2 h3
        have heq : errs2 = errs :=
          CompletionError.insufficientStock.inj (MutResult.err.inj hres)
        exact ⟨s, heq ▸ herrs⟩
    · have h2' : ctx.draft_valid = false := by simpa using h2
      rw [perform_mutation_not_valid ctx w h1 h2'] at hres
      cases hres
  · have h1' : w.order.is_draft = false := by simpa using h1
    rw [perform_mutation_not_draft ctx w h1'] at hres
    cases hres

/-- C1 (amended) witness: the failure raised for `wFail` is the single
shortage of its first line. -/
theorem insufficient_stock_reports_single_line_witness :
    (perform_mutation ctx0 wFail).result =
      MutResult.err (CompletionError.insufficientStock
        [{ variant_id := 1, requested := 5, available := 0 }]) ∧
    ∃ s, [({ variant_id := 1, requested := 5, available := 0 } : Shortage)] = [s] :=
  ⟨rfl, insufficient_stock_reports_single_line ctx0 wFail
    [{ variant_id := 1, requested := 5, available := 0 }] rfl⟩

/-- C8: a line whose variant neither tracks inventory nor is
preorder-active is skipped entirely: allocation is never attempted on it
and it never appears in the allocated-lines list of an emitted completion
event. -/
theorem ineligible_line_skipped (ctx : Ctx) (w : World) (l : OrderLine)
    (_hmem : l ∈ w.order.lines)
    (ht : l.variant.track_inventory = false)
    (hp : l.variant.is_preorder_active = false) :
    l ∉ (perform_mutation ctx w).attemptedLines ∧
    ∀ info ∈ (perform_mutation ctx w).events,
      ∀ li ∈ info.lines_data, li.line ≠ l := by
  have hel : eligibleLine l = false := by
    unfold eligibleLine; rw [ht, hp]; rfl
  by_cases h1 : w.order.is_draft = true
  · by_cases h2 : ctx.draft_valid = true
    · cases h3 : (allocateLoop ctx (savedOrder ctx w.order).channel w.stock
          (savedOrder ctx w.order).lines).failure with
      | some errs =>
        rw [perform_mutation_fail ctx w errs h1 h2 h3]
        constructor
        · rw [attemptedLines_mk_fail]
          intro hin
          have := allocateLoop_attempted_eligible ctx
            (savedOrder ctx w.order).channel (savedOrder ctx w.order).lines
            w.stock l hin
          rw [hel] at this
          cases this
        · rw [events_mk_fail]
          intro info hinfo
          cases hinfo
      | none =>
        rw [perform_mutation_ok ctx w h1 h2 h3]
        constructor
        · rw [attemptedLines_mk_ok]
          intro hin
          have := allocateLoop_attempted_eligible ctx
            (savedOrder ctx w.order).channel (savedOrder ctx w.order).lines
            w.stock l hin
          rw [hel] at this
          cases this
        · rw [events_mk_ok]
          intro info hinfo li hli heq
          rw [List.mem_singleton] at hinfo
          subst hinfo
          have := allocateLoop_infos_eligible ctx
            (savedOrder ctx w.order).channel (savedOrder ctx w.order).lines
            w.stock li hli
          rw [heq, hel] at this
          cases this
    · have h2' : ctx.draft_valid = false := by simpa using h2
      rw [perform_mutation_not_valid ctx w h1 h2']
      exact ⟨by simp [Outcome.attemptedLines], by simp [Outcome.events]⟩
  · have h1' : w.order.is_draft = false := by simpa using h1
    rw [perform_mutation_not_draft ctx w h1']
    exact ⟨by simp [Outcome.attemptedLines], by simp [Outcome.events]⟩

/-- C8 witness: the third line of `wOk` (variant with neither flag) is not
attempted and is absent from the emitted event's allocated-lines list. -/
theorem ineligible_line_skipped_witness :
    { id := 12, variant := vSkip, quantity := 4 } ∈ wOk.order.lines ∧
    vSkip.track_inventory = false ∧ vSkip.is_preorder_active = false ∧
    ({ id := 12, variant := vSkip, quantity := 4 } : OrderLine) ∉
      (perform_mutation ctx0 wOk).attemptedLines ∧
    ∀ info ∈ (perform_mutation ctx0 wOk).events,
      ∀ li ∈ info.lines_data,
        li.line ≠ { id := 12, variant := vSkip, quantity := 4 } := by
  have h := ineligible_line_skipped ctx0 wOk
    { id := 12, variant := vSkip, quantity := 4 } (by decide) rfl rfl
  exact ⟨by decide, rfl, rfl, h.1, h.2⟩

/-- C9: on a validated draft the completion event is emitted exactly when
no line's allocation failed, and the single emitted event carries the
finalized (saved) order, the list of allocated lines — one entry per
eligible line, in order — the order's channel and its last payment
reference. -/
theorem completion_event_iff_success (ctx : Ctx) (w : World)
    (h1 : w.order.is_draft = true) (h2 : ctx.draft_valid = true) :
    ((perform_mutation ctx w).events ≠ [] ↔
      (perform_mutation ctx w).result = MutResult.ok) ∧
    ((perform_mutation ctx w).result = MutResult.ok →
      (perform_mutation ctx w).events =
        [{ order := (perform_mutation ctx w).order,
           customer_email :=
             (perform_mutation ctx w).order.get_customer_email,
           channel := w.order.channel,
           payment := w.order.payments.getLast?,
           lines_data :=
             (w.order.lines.filter (fun x => eligibleLine x)).map
               mkLineInfo }]) := by
  cases h3 : (allocateLoop ctx (savedOrder ctx w.order).channel w.stock
      (savedOrder ctx w.order).lines).failure with
  | some errs =>
    rw [perform_mutation_fail ctx w errs h1 h2 h3]
    constructor
    · rw [events_mk_fail]
      constructor
      · intro hne; exact absurd rfl hne
      · intro hok; cases hok
    · intro hok; cases hok
  | none =>
    rw [perform_mutation_ok ctx w h1 h2 h3]
    constructor
    · rw [events_mk_ok]
      constructor
      · intro _; rfl
      · intro _; simp
    · intro _
      rw [events_mk_ok]
      dsimp only
      have hinfos := (allocateLoop_success ctx (savedOrder ctx w.order).channel
        (savedOrder ctx w.order).lines w.stock h3).1
      rw [hinfos, savedOrder_lines ctx w.order, savedOrder_channel ctx w.order]
      unfold Order.get_last_payment
      rw [savedOrder_payments ctx w.order]

/-- C9 witness: completing `wOk` emits exactly one event, carrying the
saved order, the two allocated lines, the channel and the last payment. -/
theorem completion_event_iff_success_witness :
    wOk.order.is_draft = true ∧ ctx0.draft_valid = true ∧
    (perform_mutation ctx0 wOk).result = MutResult.ok ∧
    (perform_mutation ctx0 wOk).events =
      [{ order := (perform_mutation ctx0 wOk).order,
         customer_email := (perform_mutation ctx0 wOk).order.get_customer_email,
         channel := wOk.order.channel,
         payment := wOk.order.payments.getLast?,
         lines_data :=
           (wOk.order.lines.filter (fun x => eligibleLine x)).map
             mkLineInfo }] := by
  have h := (completion_event_iff_success ctx0 wOk (by decide) rfl).2 rfl
  exact ⟨by decide, rfl, rfl, h⟩

/-- C10: customer-identity resolution never fails completion: with an
attached user the order email is overwritten from the user; with only a
non-empty email the matching user is attached when one exists and otherwise
`user` is set to `None`; with no user and an empty email nothing changes;
and after validation the only possible completion failure is an
insufficient-stock shortage — never an identity-resolution error. -/
theorem customer_identity_resolution (us : List User) (o : Order) :
    (∀ u, o.user = some u →
      update_user_fields us o = { o with user_email := u.email }) ∧
    (o.user = none → o.user_email ≠ "" →
      ((∀ u ∈ us, u.email ≠ o.user_email) →
        update_user_fields us o = { o with user := none }) ∧
      (∀ u0, u0 ∈ us → u0.email = o.user_email →
        ∃ u, (update_user_fields us o).user = some u ∧ u ∈ us ∧
          u.email = o.user_email)) ∧
    (o.user = none → o.user_email = "" → update_user_fields us o = o) ∧
    (∀ ctx w, w.order.is_draft = true → ctx.draft_valid = true →
      (perform_mutation ctx w).result = MutResult.ok ∨
      ∃ errs, (perform_mutation ctx w).result =
        MutResult.err (CompletionError.insufficientStock errs)) := by
  refine ⟨?_, ?_, ?_, ?_⟩
  · intro u hu
    unfold update_user_fields
    rw [hu]
  · intro hu hne
    constructor
    · intro hall
      unfold update_user_fields
      rw [hu, if_pos hne]
      have hfind : us.find? (fun u => u.email == o.user_email) = none := by
        rw [List.find?_eq_none]
        intro x hx
        simp only [beq_iff_eq]
        exact hall x hx
      rw [hfind]
    · intro u0 hmem0 hemail0
      unfold update_user_fields
      rw [hu, if_pos hne]
      dsimp only
      cases hfind : us.find? (fun u => u.email == o.user_email) with
      | none =>
        rw [List.find?_eq_none] at hfind
        exact absurd (by simpa using hemail0)
          (by simpa using hfind u0 hmem0)
      | some u =>
        refine ⟨u, rfl, List.mem_of_find?_eq_some hfind, ?_⟩
        have hp := List.find?_some hfind
        simpa using hp
  · intro hu he
    unfold update_user_fields
    rw [hu, if_neg (by simp [he])]
  · intro ctx w h1 h2
    cases h3 : (allocateLoop ctx (savedOrder ctx w.order).channel w.stock
        (savedOrder ctx w.order).lines).failure with
    | none => left; rw [perform_mutation_ok ctx w h1 h2 h3]
    | some errs =>
      right
      exact ⟨errs, by rw [perform_mutation_fail ctx w errs h1 h2 h3]⟩

def u1 : User := { id := 1, email := "c@x.io" }

/-- C10 witness: `baseOrder` has no attached user and a non-empty email;
against a user table containing the matching `u1`, resolution attaches a
user with that email. -/
theorem customer_identity_resolution_witness :
    baseOrder.user = none ∧ baseOrder.user_email ≠ "" ∧
    ∃ u, (update_user_fields [u1] baseOrder).user = some u ∧ u ∈ [u1] ∧
      u.email = baseOrder.user_email :=
  ⟨rfl, by decide,
    ((customer_identity_resolution [u1] baseOrder).2.1 rfl
      (by decide)).2 u1 (by decide) rfl⟩

/-- C4: each line's allocation is all-or-nothing: on success the entire
quantity is committed (to the Stock Ledger on the stock path, to the
preorder pool on the preorder path, the other side untouched); on an
insufficient-stock failure the loop's stock state is exactly the state
before the line — none of the line's mutations persist. -/
theorem line_allocation_all_or_nothing (ctx : Ctx) (ch : String)
    (st st2 : StockState) (l : OrderLine) (rest : List OrderLine)
    (s : Shortage) (he : eligibleLine l = true) :
    (allocateLine ctx ch st l = Except.error s →
      (allocateLoop ctx ch st (l :: rest)).stock = st ∧
      (allocateLoop ctx ch st (l :: rest)).failure = some [s]) ∧
    (allocateLine ctx ch st l = Except.ok st2 →
      (resolveStrategy l.variant = AllocationStrategy.stock →
        totalAllocated st2.stocks l.variant.id =
          totalAllocated st.stocks l.variant.id + l.quantity ∧
        st2.preorders = st.preorders) ∧
      (resolveStrategy l.variant = AllocationStrategy.preorder →
        preorderAllocated st2.preorders l.variant.id ch =
          preorderAllocated st.preorders l.variant.id ch + l.quantity ∧
        st2.stocks = st.stocks)) := by
  constructor
  · intro herr
    rw [allocateLoop_cons_err ctx ch st l rest s he herr]
    exact ⟨rfl, rfl⟩
  · intro hok
    constructor
    · intro hs
      rw [allocateLine_stock ctx ch st l hs] at hok
      exact allocate_stocks_ok ctx st l st2 hs hok
    · intro hs
      rw [allocateLine_preorder ctx ch st l hs] at hok
      exact allocate_preorders_ok ctx st ch l st2 hs hok

def line10 : OrderLine := { id := 10, variant := vTrack1, quantity := 2 }

/-- The stock state after line10's successful allocation from `wOk`. -/
def stAfter : StockState :=
  { stocks := [{ warehouse := "A", variant_id := 1, quantity_on_hand := 5,
                 quantity_allocated := 2, quantity_reserved := 0 }],
    preorders := wOk.stock.preorders }

/-- C4 witness: line10 of `wOk` is eligible; its successful allocation
commits exactly its quantity of 2 to the ledger and nothing else. -/
theorem line_allocation_all_or_nothing_witness :
    eligibleLine line10 = true ∧
    allocateLine ctx0 "ch" wOk.stock line10 = Except.ok stAfter ∧
    ((allocateLine ctx0 "ch" wOk.stock line10 = Except.ok stAfter →
      (resolveStrategy line10.variant = AllocationStrategy.stock →
        totalAllocated stAfter.stocks line10.variant.id =
          totalAllocated wOk.stock.stocks line10.variant.id + line10.quantity ∧
        stAfter.preorders = wOk.stock.preorders) ∧
      (resolveStrategy line10.variant = AllocationStrategy.preorder →
        preorderAllocated stAfter.preorders line10.variant.id "ch" =
          preorderAllocated wOk.stock.preorders line10.variant.id "ch" +
            line10.quantity ∧
        stAfter.stocks = wOk.stock.stocks))) :=
  ⟨by decide, rfl,
    (line_allocation_all_or_nothing ctx0 "ch" wOk.stock stAfter line10 []
      { variant_id := 0, requested := 0, available := 0 } (by decide)).2⟩

/-- C5: each eligible line is routed to exactly one allocation path, fully
determined by its variant's flags: preorder-active variants take the
preorder path, inventory-tracked variants that are not preorder-active take
the stock path, never both — and the allocator of the other path returns
the state untouched. -/
theorem line_routed_to_exactly_one_path (ctx : Ctx) (ch : String)
    (st : StockState) (l : OrderLine) (he : eligibleLine l = true) :
    (resolveStrategy l.variant = AllocationStrategy.stock ∨
     resolveStrategy l.variant = AllocationStrategy.preorder) ∧
    ¬(resolveStrategy l.variant = AllocationStrategy.stock ∧
      resolveStrategy l.variant = AllocationStrategy.preorder) ∧
    (resolveStrategy l.variant = AllocationStrategy.preorder ↔
      l.variant.is_preorder_active = true) ∧
    (resolveStrategy l.variant = AllocationStrategy.stock ↔
      (l.variant.track_inventory = true ∧
       l.variant.is_preorder_active = false)) ∧
    (resolveStrategy l.variant ≠ AllocationStrategy.stock →
      allocate_stocks ctx st l = Except.ok st) ∧
    (resolveStrategy l.variant ≠ AllocationStrategy.preorder →
      allocate_preorders ctx st ch l = Except.ok st) := by
  refine ⟨eligible_strategy l he, ?_, ?_, ?_, ?_, ?_⟩
  · rintro ⟨ha, hb⟩
    rw [ha] at hb
    cases hb
  · cases hp : l.variant.is_preorder_active <;>
      cases ht : l.variant.track_inventory <;>
        simp [resolveStrategy, hp, ht]
  · cases hp : l.variant.is_preorder_active <;>
      cases ht : l.variant.track_inventory <;>
        simp [resolveStrategy, hp, ht]
  · intro h
    unfold allocate_stocks
    rw [if_neg h]
  · intro h
    unfold allocate_preorders
    rw [if_neg h]

/-- C5 witness: the preorder line of `wOk` routes to the preorder path and
not to the stock path; the stock allocator leaves the state untouched. -/
theorem line_routed_to_exactly_one_path_witness :
    eligibleLine { id := 11, variant := vPre, quantity := 1 } = true ∧
    resolveStrategy vPre = AllocationStrategy.preorder ∧
    ¬(resolveStrategy vPre = AllocationStrategy.stock ∧
      resolveStrategy vPre = AllocationStrategy.preorder) :=
  ⟨by decide, by decide,
    (line_routed_to_exactly_one_path ctx0 "ch" wOk.stock
      { id := 11, variant := vPre, quantity := 1 } (by decide)).2.1⟩

end Saleor
